import Mathlib

/-!
Verification of the escape/width encoding engine of `src/utf8.c`.

Byte buffers are modelled as `List Nat` (each element a byte value `< 256`);
cursor positions are indices into the list, with the buffer end at
`s.length`.  The `corpus` library helpers (`corpus_scan_utf8`,
`corpus_decode_utf8`, `corpus_unicode_charwidth`,
`corpus_array_size_add`) are not part of the source under test and are
modelled from the specification, as marked on each definition.
-/

/-- Width classes of the code-point classifier (spec section 4.2). -/
inductive CharWidth where
  | narrow
  | wide
  | ambiguous
  | emoji
  | ignorable
  | other
deriving DecidableEq, Repr

/-- Modelled from the spec: `corpus_unicode_charwidth`, the pure
code-point classifier backed by the Unicode width tables (East Asian
Width, emoji presentation, default-ignorable set).  Representative
ranges: printable ASCII is NARROW, control characters are OTHER,
U+200B-class format characters are IGNORABLE, CJK ideographs and wide
Hangul are WIDE, emoji blocks are EMOJI, a sample East-Asian-ambiguous
range is AMBIGUOUS, everything else in range is NARROW. -/
def corpus_unicode_charwidth (code : Nat) : CharWidth :=
  if code < 0x20 then .other
  else if code < 0x7F then .narrow
  else if code < 0xA0 then .other
  else if code = 0xA1 ∨ code = 0xA4 then .ambiguous
  else if 0x200B ≤ code ∧ code ≤ 0x200F then .ignorable
  else if code = 0xAD ∨ (0xFE00 ≤ code ∧ code ≤ 0xFE0F) then .ignorable
  else if 0x1100 ≤ code ∧ code ≤ 0x115F then .wide
  else if 0x2E80 ≤ code ∧ code ≤ 0x9FFF then .wide
  else if 0xAC00 ≤ code ∧ code ≤ 0xD7A3 then .wide
  else if 0xF900 ≤ code ∧ code ≤ 0xFAFF then .wide
  else if 0x1F300 ≤ code ∧ code ≤ 0x1F9FF then .emoji
  else if 0x20000 ≤ code ∧ code ≤ 0x2FFFD then .wide
  else if 0xE0000 ≤ code ∧ code ≤ 0xE0FFF then .ignorable
  else if code ≤ 0x10FFFF then .narrow
  else .other

/-- Modelled from the spec: `CORPUS_UTF8_TAIL_LEN`, the number of
continuation bytes announced by a lead byte (the "leading byte's
tail-length encoding", spec section 4.1). -/
def utf8TailLen (b : Nat) : Nat :=
  if 0xF0 ≤ b then 3
  else if 0xE0 ≤ b then 2
  else if 0xC0 ≤ b then 1
  else 0

/-- A UTF-8 continuation byte: high bits `10`. -/
def isCont (b : Nat) : Bool :=
  0x80 ≤ b && b < 0xC0

/-- Modelled from the spec: `corpus_scan_utf8` (spec section 4.1).
Validates one unit run starting at index `i`; on success returns the
cursor position just past the run (advanced by the run's 1-4 bytes).
Fails (returns `none`) on a lone continuation byte, a truncated
sequence at the buffer end, a malformed continuation byte, an overlong
form, a surrogate, a code point beyond U+10FFFF, or a 5/6-byte lead. -/
def corpus_scan_utf8 (s : List Nat) (i : Nat) : Option Nat :=
  if i < s.length then
    let b := s.getD i 0
    if b < 0x80 then some (i + 1)
    else if b < 0xC2 then none
    else if b < 0xE0 then
      if i + 2 ≤ s.length && isCont (s.getD (i + 1) 0) then some (i + 2)
      else none
    else if b < 0xF0 then
      if i + 3 ≤ s.length && isCont (s.getD (i + 1) 0) && isCont (s.getD (i + 2) 0)
          && (b ≠ 0xE0 || 0xA0 ≤ s.getD (i + 1) 0)
          && (b ≠ 0xED || s.getD (i + 1) 0 < 0xA0) then some (i + 3)
      else none
    else if b < 0xF5 then
      if i + 4 ≤ s.length && isCont (s.getD (i + 1) 0) && isCont (s.getD (i + 2) 0)
          && isCont (s.getD (i + 3) 0)
          && (b ≠ 0xF0 || 0x90 ≤ s.getD (i + 1) 0)
          && (b ≠ 0xF4 || s.getD (i + 1) 0 < 0x90) then some (i + 4)
      else none
    else none
  else none

/-- Modelled from the spec: `corpus_decode_utf8` (spec section 4.1).
Assumes the run at `i` was already validated; returns the decoded code
point and the advanced cursor.  The advance is determined by the lead
byte alone (1-4 bytes), with no bounds check, exactly as a decoder that
"assumes validity" behaves. -/
def corpus_decode_utf8 (s : List Nat) (i : Nat) : Nat × Nat :=
  let b := s.getD i 0
  if b < 0x80 then (b, i + 1)
  else if b < 0xE0 then
    (b % 0x20 * 0x40 + s.getD (i + 1) 0 % 0x40, i + 2)
  else if b < 0xF0 then
    (b % 0x10 * 0x1000 + s.getD (i + 1) 0 % 0x40 * 0x40 + s.getD (i + 2) 0 % 0x40,
     i + 3)
  else
    (b % 0x08 * 0x40000 + s.getD (i + 1) 0 % 0x40 * 0x1000 +
       s.getD (i + 2) 0 % 0x40 * 0x40 + s.getD (i + 3) 0 % 0x40,
     i + 4)

/-- C-locale `isprint` for the byte range the source applies it to:
printable ASCII is 0x20 through 0x7E. -/
def isprintC (c : Nat) : Bool :=
  0x20 ≤ c && c ≤ 0x7E

/-- The control characters with shorthand escapes, exactly the `case`
labels of the source's switch: `\a \b \f \n \r \t \v`. -/
def isCtrlShorthand (c : Nat) : Bool :=
  c = 7 || c = 8 || c = 12 || c = 10 || c = 13 || c = 9 || c = 11

/-- `INT_MAX`, the hard output-size ceiling. -/
def INT_MAX : Nat := 2 ^ 31 - 1

/-- Lowercase hexadecimal digit, as produced by `sprintf "%x"`. -/
def hexDigit (n : Nat) : Nat :=
  if n < 10 then 48 + n else 97 + (n - 10)

/-- The two bytes written by `sprintf "%02x"` for a byte value. -/
def hex2 (n : Nat) : List Nat :=
  [hexDigit (n / 16 % 16), hexDigit (n % 16)]

/-- The four bytes written by `sprintf "%04x"` for a value up to 0xFFFF. -/
def hex4 (n : Nat) : List Nat :=
  hex2 (n / 256) ++ hex2 (n % 256)

/-- The eight bytes written by `sprintf "%08x"`. -/
def hex8 (n : Nat) : List Nat :=
  hex4 (n / 65536) ++ hex4 (n % 65536)

/-- The zero-width-space marker `ZWSP`, U+200B as three UTF-8 bytes. -/
def ZWSP : List Nat := [0xE2, 0x80, 0x8B]

/-- One iteration of the `needs_encode_chars` loop body of `src/utf8.c`
(lines 144-208): given the cursor `i` and the current `needs` flag,
returns the updated `needs` flag, the output byte count `nbyte` charged
for this unit, and the advanced cursor.  The `(false, nbyte, _)` result
in the passthrough width-class branch reproduces the source's
`default: needs = 0` assignment verbatim. -/
def needs_encode_chars_step (display utf8 : Bool) (s : List Nat) (i : Nat)
    (needs : Bool) : Bool × Nat × Nat :=
  let b := s.getD i 0
  let nbyte := 1 + utf8TailLen b
  match corpus_scan_utf8 s i with
  | none => (true, 4, i + 1)
  | some _ =>
    if nbyte = 1 then
      if isCtrlShorthand b then (true, 2, i + 1)
      else if ¬ isprintC b then (true, 4, i + 1)
      else (needs, 1, i + 1)
    else
      let code := (corpus_decode_utf8 s i).1
      let i' := (corpus_decode_utf8 s i).2
      if utf8 then
        match corpus_unicode_charwidth code with
        | .other => (true, if code ≤ 0xFFFF then 6 else 10, i')
        | .ignorable => if display then (true, 0, i') else (needs, nbyte, i')
        | .emoji => if display then (true, nbyte + 3, i') else (needs, nbyte, i')
        | _ => (false, nbyte, i')
      else (true, if code ≤ 0xFFFF then 6 else 10, i')

/-- The `needs_encode_chars` loop (`while (ptr != end)`), fuelled.
`none` means the fuel ran out; `some (.error ())` is the fatal
size-overflow `error(...)` call; `some (.ok (needs, size))` is normal
return.  The overflow test `size > INT_MAX - nbyte` precedes the
accumulation `size += nbyte`, as in the source. -/
def needs_encode_chars_go (display utf8 : Bool) (s : List Nat) :
    Nat → Nat → Bool → Nat → Option (Except Unit (Bool × Nat))
  | 0, _, _, _ => none
  | fuel + 1, i, needs, size =>
    if i = s.length then some (.ok (needs, size))
    else if size > INT_MAX - (needs_encode_chars_step display utf8 s i needs).2.1 then
      some (.error ())
    else
      needs_encode_chars_go display utf8 s fuel
        (needs_encode_chars_step display utf8 s i needs).2.2
        (needs_encode_chars_step display utf8 s i needs).1
        (size + (needs_encode_chars_step display utf8 s i needs).2.1)

/-- `needs_encode_chars` of `src/utf8.c`: run the estimator loop from
cursor 0 with `needs = 0`, `size = 0`.  The fuel `s.length + 1` is
sufficient because every iteration advances the cursor. -/
def needs_encode_chars (s : List Nat) (display utf8 : Bool) :
    Option (Except Unit (Bool × Nat)) :=
  needs_encode_chars_go display utf8 s (s.length + 1) 0 false 0

/-- One iteration of the `encode_chars` loop body of `src/utf8.c`
(lines 233-315): the bytes written through `dst` for the unit at `i`,
and the advanced source cursor. -/
def encode_chars_step (display utf8 : Bool) (s : List Nat) (i : Nat) :
    List Nat × Nat :=
  let b := s.getD i 0
  match corpus_scan_utf8 s i with
  | none => ([92, 120] ++ hex2 b, i + 1)
  | some _ =>
    let nbyte := 1 + utf8TailLen b
    if nbyte = 1 then
      if b = 7 then ([92, 97], i + 1)
      else if b = 8 then ([92, 98], i + 1)
      else if b = 12 then ([92, 102], i + 1)
      else if b = 10 then ([92, 110], i + 1)
      else if b = 13 then ([92, 114], i + 1)
      else if b = 9 then ([92, 116], i + 1)
      else if b = 11 then ([92, 118], i + 1)
      else if ¬ isprintC b then ([92, 120] ++ hex2 b, i + 1)
      else ([b], i + 1)
    else
      let code := (corpus_decode_utf8 s i).1
      let i' := (corpus_decode_utf8 s i).2
      let cw := corpus_unicode_charwidth code
      if cw = .other ∨ ¬ utf8 then
        (if code ≤ 0xFFFF then [92, 117] ++ hex4 code
         else [92, 85] ++ hex8 code, i')
      else if cw = .ignorable ∧ display then ([], i')
      else
        let copied := (List.range nbyte).map fun k => s.getD (i + k) 0
        (if cw = .emoji ∧ display then copied ++ ZWSP else copied, i')

/-- The `encode_chars` loop, fuelled; `some out` is the full list of
bytes written through `dst`. -/
def encode_chars_go (display utf8 : Bool) (s : List Nat) :
    Nat → Nat → Option (List Nat)
  | 0, _ => none
  | fuel + 1, i =>
    if i = s.length then some []
    else
      match encode_chars_go display utf8 s fuel (encode_chars_step display utf8 s i).2 with
      | none => none
      | some rest => some ((encode_chars_step display utf8 s i).1 ++ rest)

/-- `encode_chars` of `src/utf8.c`: the bytes written for the whole
buffer. -/
def encode_chars (s : List Nat) (display utf8 : Bool) : Option (List Nat) :=
  encode_chars_go display utf8 s (s.length + 1) 0

/-- The `charsxp_width` loop of `src/utf8.c` (lines 47-65), fuelled.
The loop decodes without scanning first; the `default: continue` branch
contributes 0.  `none` means the fuel ran out (the loop condition
`ptr != end` was never met). -/
def charsxp_width_go (s : List Nat) : Nat → Nat → Nat → Option Nat
  | 0, _, _ => none
  | fuel + 1, i, width =>
    if i = s.length then some width
    else
      charsxp_width_go s fuel (corpus_decode_utf8 s i).2
        (width +
          match corpus_unicode_charwidth (corpus_decode_utf8 s i).1 with
          | .narrow | .ambiguous => 1
          | .wide | .emoji => 2
          | _ => 0)

/-- `charsxp_width` of `src/utf8.c`: run the width loop from cursor 0
with fuel `s.length + 1`, which suffices exactly when every decode step
lands inside the buffer. -/
def charsxp_width (s : List Nat) : Option Nat :=
  charsxp_width_go s (s.length + 1) 0 0

/-- The display-width contribution of one width class (spec section
4.5): 1 for NARROW/AMBIGUOUS, 2 for WIDE/EMOJI, 0 otherwise. -/
def charWidthValue (cw : CharWidth) : Nat :=
  match cw with
  | .narrow | .ambiguous => 1
  | .wide | .emoji => 2
  | _ => 0

/-- The `is_valid` loop of `src/utf8.c` (lines 106-130), fuelled: scan
unit runs until the end; on the first failure return `false` together
with the offset of the failing run's start. -/
def is_valid_go (s : List Nat) : Nat → Nat → Option (Bool × Option Nat)
  | 0, _ => none
  | fuel + 1, i =>
    if i = s.length then some (true, Option.none)
    else
      match corpus_scan_utf8 s i with
      | Option.none => some (false, some i)
      | some j => is_valid_go s fuel j

/-- `is_valid` of `src/utf8.c`: the validity flag and, when invalid,
the error offset written through `errptr`. -/
def is_valid (s : List Nat) : Option (Bool × Option Nat) :=
  is_valid_go s (s.length + 1) 0

/-- The per-byte output size of the `needs_encode_bytes` switch:
2 for a shorthand control, 1 for printable ASCII, else 4 (`\xXX`). -/
def encode_bytes_nbyte (c : Nat) : Nat :=
  if isCtrlShorthand c then 2
  else if c < 0x80 && isprintC c then 1
  else 4

/-- The switch body of `needs_encode_bytes`: the updated `needs` flag
and the `nbyte` charge for one byte. -/
def needs_encode_bytes_case (c : Nat) (needs : Bool) : Bool × Nat :=
  if isCtrlShorthand c then (true, 2)
  else if c < 0x80 && isprintC c then (needs, 1)
  else (true, 4)

/-- `needs_encode_bytes` of `src/utf8.c` (lines 319-362), as structural
recursion over the remaining bytes, carrying the `needs` flag and the
running `size`; `.error ()` is the fatal size-overflow call. -/
def needs_encode_bytes_go : List Nat → Bool → Nat → Except Unit (Bool × Nat)
  | [], needs, size => .ok (needs, size)
  | c :: rest, needs, size =>
    if size > INT_MAX - (needs_encode_bytes_case c needs).2 then .error ()
    else
      needs_encode_bytes_go rest (needs_encode_bytes_case c needs).1
        (size + (needs_encode_bytes_case c needs).2)

/-- `needs_encode_bytes` of `src/utf8.c`, started with `needs = 0`,
`size = 0`. -/
def needs_encode_bytes (s : List Nat) : Except Unit (Bool × Nat) :=
  needs_encode_bytes_go s false 0

/-- The exact per-byte output total of the bytes estimator, with no
overflow ceiling. -/
def bytes_total (s : List Nat) : Nat :=
  (s.map encode_bytes_nbyte).sum

/-- Result of `charsxp_encode` for one UTF-8 element: `same` is the
fast path returning the input object itself with no allocation;
`fresh out` is a newly written encoded string. -/
inductive CharsxpResult where
  | same
  | fresh (out : List Nat)
deriving DecidableEq, Repr

/-- The per-element control flow of `charsxp_encode` in `src/utf8.c`
(lines 444-468) for a UTF-8 (non-`bytes`, non-`NA`) element: if the
estimator reports no transform, the original object is returned and no
output buffer is touched; otherwise the encoder output is returned. -/
def charsxp_encode (s : List Nat) (display utf8 : Bool) :
    Option (Except Unit CharsxpResult) :=
  match needs_encode_chars s display utf8 with
  | Option.none => Option.none
  | some (.error e) => some (.error e)
  | some (.ok (false, _)) => some (.ok .same)
  | some (.ok (true, _)) =>
    match encode_chars s display utf8 with
    | Option.none => Option.none
    | some out => some (.ok (.fresh out))

/-- The reusable scratch buffer shared across a `utf8_encode` batch:
`alloc` is the number of bytes actually allocated for `*bufptr`
(`R_alloc`), `cap` is the capacity recorded in `*nbufptr`. -/
structure BufState where
  alloc : Nat
  cap : Nat
deriving DecidableEq, Repr

/-- Modelled from the spec: `corpus_array_size_add` with `width 1`,
`count 0`, growing the recorded capacity to hold `nadd` bytes.  The
spec describes the scratch buffer as grow-only and kept "to avoid
repeated allocation" (section 5), so the helper over-grows
geometrically: it returns the old capacity when it already suffices,
and otherwise at least doubles it (never less than the request). -/
def corpus_array_size_add (size : Nat) (nadd : Nat) : Nat :=
  if nadd ≤ size then size else max nadd (2 * size)

/-- The buffer-management path of `charsxp_encode` (lines 455-460) for
one element, given the element's bytes: when the estimator demands a
transform of `size2` bytes and `size2` exceeds the recorded capacity,
the capacity is grown with `corpus_array_size_add` while `R_alloc`
allocates only `size2` bytes.  Returns the updated state and, when the
element is written through the buffer, the number of bytes the encoder
writes into it. -/
def charsxp_encode_st (s : List Nat) (display utf8 : Bool) (st : BufState) :
    BufState × Option Nat :=
  match needs_encode_chars s display utf8 with
  | some (.ok (true, size2)) =>
    if size2 > st.cap then
      ({ alloc := size2, cap := corpus_array_size_add st.cap size2 }, some size2)
    else (st, some size2)
  | _ => (st, Option.none)

/-- The `utf8_encode` batch loop of `src/utf8.c` (lines 664-675):
start with `buf = NULL`, `nbuf = 0` and thread the scratch-buffer state
through every element. -/
def utf8_encode_run (elts : List (List Nat)) (display utf8 : Bool) : BufState :=
  elts.foldl (fun st s => (charsxp_encode_st s display utf8 st).1) ⟨0, 0⟩

/-- Reachability of cursor positions by iterating the scanner: the
scan path from `i` visiting only successful unit runs. -/
inductive ScanReaches (s : List Nat) : Nat → Nat → Prop where
  | refl (i : Nat) : ScanReaches s i i
  | step {i j k : Nat} : corpus_scan_utf8 s i = some j →
      ScanReaches s j k → ScanReaches s i k

/-- `DecodesTo s i cs`: from cursor `i` the buffer scans cleanly to the
end and decodes to the code-point sequence `cs` (spec sections 4.1 and
4.5). -/
inductive DecodesTo (s : List Nat) : Nat → List Nat → Prop where
  | nil : DecodesTo s s.length []
  | cons {i j : Nat} {cs : List Nat} :
      corpus_scan_utf8 s i = some j →
      DecodesTo s j cs →
      DecodesTo s i ((corpus_decode_utf8 s i).1 :: cs)

/-- The exact output total of the chars estimator from cursor `i`,
with no overflow ceiling: the sum of the per-unit `nbyte` charges of
`needs_encode_chars_step`. -/
def chars_total_from (d u : Bool) (s : List Nat) (i : Nat) : Nat :=
  if h : i < s.length then
    (needs_encode_chars_step d u s i false).2.1 +
      chars_total_from d u s (needs_encode_chars_step d u s i false).2.2
  else 0
termination_by s.length - i
decreasing_by
  refine Nat.sub_lt_sub_left h ?_
  have hd : i < (corpus_decode_utf8 s i).2 := by
    simp only [corpus_decode_utf8]
    repeat' split
    all_goals omega
  simp only [needs_encode_chars_step]
  cases hs : corpus_scan_utf8 s i
  · simp
  · repeat' split
    all_goals simp_all

theorem corpus_decode_utf8_lt (s : List Nat) (i : Nat) :
    i < (corpus_decode_utf8 s i).2 := by
  simp only [corpus_decode_utf8]
  repeat' split
  all_goals omega

theorem corpus_scan_utf8_bounds {s : List Nat} {i j : Nat}
    (h : corpus_scan_utf8 s i = some j) : i < j ∧ j ≤ s.length := by
  simp only [corpus_scan_utf8] at h
  repeat' split at h
  all_goals simp_all
  all_goals omega

theorem corpus_scan_decode {s : List Nat} {i j : Nat}
    (h : corpus_scan_utf8 s i = some j) : (corpus_decode_utf8 s i).2 = j := by
  simp only [corpus_scan_utf8] at h
  simp only [corpus_decode_utf8]
  repeat' split at h
  all_goals simp_all
  all_goals (repeat' split)
  all_goals omega

theorem needs_encode_chars_step_lt (d u : Bool) (s : List Nat) (i : Nat)
    (needs : Bool) : i < (needs_encode_chars_step d u s i needs).2.2 := by
  simp only [needs_encode_chars_step]
  cases h : corpus_scan_utf8 s i
  · simp
  · have := corpus_decode_utf8_lt s i
    repeat' split
    all_goals simp_all

theorem needs_encode_chars_step_le (d u : Bool) (s : List Nat) (i : Nat)
    (needs : Bool) (h : i < s.length) :
    (needs_encode_chars_step d u s i needs).2.2 ≤ s.length := by
  simp only [needs_encode_chars_step]
  cases hs : corpus_scan_utf8 s i
  · simpa using h
  · next j =>
    have hb := corpus_scan_utf8_bounds hs
    have hd := corpus_scan_decode hs
    repeat' split
    all_goals simp_all
    all_goals omega

theorem needs_encode_chars_step_irrel (d u : Bool) (s : List Nat) (i : Nat)
    (n₁ n₂ : Bool) :
    (needs_encode_chars_step d u s i n₁).2 = (needs_encode_chars_step d u s i n₂).2 := by
  simp only [needs_encode_chars_step]
  cases h : corpus_scan_utf8 s i
  · simp
  · repeat' split
    all_goals simp_all

theorem needs_encode_chars_step_nbyte_le (d u : Bool) (s : List Nat) (i : Nat)
    (needs : Bool) : (needs_encode_chars_step d u s i needs).2.1 ≤ 10 := by
  have ht : utf8TailLen (s.getD i 0) ≤ 3 := by
    simp only [utf8TailLen]; repeat' split
    all_goals omega
  simp only [needs_encode_chars_step]
  cases h : corpus_scan_utf8 s i
  · simp
  · repeat' split
    all_goals simp_all
    all_goals omega

theorem encode_chars_step_agree (d u : Bool) (s : List Nat) (i : Nat)
    (needs : Bool) :
    (encode_chars_step d u s i).1.length = (needs_encode_chars_step d u s i needs).2.1 ∧
      (encode_chars_step d u s i).2 = (needs_encode_chars_step d u s i needs).2.2 := by
  simp only [encode_chars_step, needs_encode_chars_step]
  generalize hb : s.getD i 0 = b
  cases h : corpus_scan_utf8 s i
  · simp [hex2]
  · simp only []
    by_cases h1 : 1 + utf8TailLen b = 1
    · simp only [h1, reduceIte]
      by_cases hc : isCtrlShorthand b
      · have hb7 : b = 7 ∨ b = 8 ∨ b = 12 ∨ b = 10 ∨ b = 13 ∨ b = 9 ∨ b = 11 := by
          simpa [isCtrlShorthand, or_assoc] using hc
        rcases hb7 with rfl | rfl | rfl | rfl | rfl | rfl | rfl
        all_goals simp [isCtrlShorthand]
      · have hn : ¬ (b = 7 ∨ b = 8 ∨ b = 12 ∨ b = 10 ∨ b = 13 ∨ b = 9 ∨ b = 11) := by
          simpa [isCtrlShorthand, or_assoc] using hc
        push_neg at hn
        obtain ⟨n7, n8, n12, n10, n13, n9, n11⟩ := hn
        by_cases hp : isprintC b
        all_goals simp [hc, hp, n7, n8, n12, n10, n13, n9, n11, hex2]
    · simp only [h1, reduceIte]
      cases hcw : corpus_unicode_charwidth ((corpus_decode_utf8 s i).1)
      all_goals cases u <;> cases d
      all_goals simp [hcw, hex2, hex4, hex8, ZWSP]
      all_goals try split
      all_goals simp [hex2, hex4, hex8]

theorem needs_encode_go_agree (d u : Bool) (s : List Nat) :
    ∀ fuel i needs size n sz,
      needs_encode_chars_go d u s fuel i needs size = some (Except.ok (n, sz)) →
      ∃ out, encode_chars_go d u s fuel i = some out ∧ sz = size + out.length := by
  intro fuel
  induction fuel with
  | zero =>
    intro i needs size n sz h
    simp [needs_encode_chars_go] at h
  | succ fuel ih =>
    intro i needs size n sz h
    by_cases hi : i = s.length
    · subst hi
      simp [needs_encode_chars_go] at h
      exact ⟨[], by simp [encode_chars_go], by simp [← h.2]⟩
    · rw [needs_encode_chars_go, if_neg hi] at h
      split at h
      · simp at h
      · obtain ⟨out, hout, hsz⟩ := ih _ _ _ _ _ h
        refine ⟨(encode_chars_step d u s i).1 ++ out, ?_, ?_⟩
        · rw [encode_chars_go, if_neg hi, (encode_chars_step_agree d u s i needs).2,
            hout]
        · rw [List.length_append, (encode_chars_step_agree d u s i needs).1]
          omega

theorem ten_le_INT_MAX : 10 ≤ INT_MAX := by norm_num [INT_MAX]

theorem needs_encode_chars_go_total (d u : Bool) (s : List Nat) :
    ∀ fuel i needs size, s.length - i < fuel → i ≤ s.length → size ≤ INT_MAX →
      (needs_encode_chars_go d u s fuel i needs size = some (Except.error ()) ↔
        INT_MAX < size + chars_total_from d u s i) ∧
      (∀ n sz,
        needs_encode_chars_go d u s fuel i needs size = some (Except.ok (n, sz)) →
        sz = size + chars_total_from d u s i) := by
  intro fuel
  induction fuel with
  | zero => intro i needs size h; omega
  | succ fuel ih =>
    intro i needs size hfuel hile hsize
    by_cases hi : i = s.length
    · subst hi
      rw [chars_total_from, dif_neg (lt_irrefl s.length)]
      constructor
      · constructor
        · intro hcontra; simp [needs_encode_chars_go] at hcontra
        · intro hcontra; omega
      · intro n sz h
        simp [needs_encode_chars_go] at h
        omega
    · have hilt : i < s.length := lt_of_le_of_ne hile hi
      have hirr := needs_encode_chars_step_irrel d u s i needs false
      have hnb := needs_encode_chars_step_nbyte_le d u s i needs
      have hlt := needs_encode_chars_step_lt d u s i needs
      have hle := needs_encode_chars_step_le d u s i needs hilt
      rw [chars_total_from, dif_pos hilt, ← hirr]
      rw [needs_encode_chars_go, if_neg hi]
      have h10 := ten_le_INT_MAX
      by_cases hov : size > INT_MAX - (needs_encode_chars_step d u s i needs).2.1
      · rw [if_pos hov]
        constructor
        · constructor
          · intro; omega
          · intro; rfl
        · intro n sz h; simp at h
      · rw [if_neg hov]
        have hrec := ih (needs_encode_chars_step d u s i needs).2.2
          (needs_encode_chars_step d u s i needs).1
          (size + (needs_encode_chars_step d u s i needs).2.1)
          (by omega) hle (by omega)
        constructor
        · rw [hrec.1]; omega
        · intro n sz h
          have := hrec.2 n sz h
          omega

theorem needs_encode_chars_step_printable (d u : Bool) (s : List Nat) (i : Nat)
    (needs : Bool) (hilt : i < s.length)
    (hb : 0x20 ≤ s.getD i 0 ∧ s.getD i 0 ≤ 0x7E) :
    needs_encode_chars_step d u s i needs = (needs, 1, i + 1) := by
  have hscan : corpus_scan_utf8 s i = some (i + 1) := by
    rw [corpus_scan_utf8, if_pos hilt]
    rw [if_pos (show s.getD i 0 < 0x80 by omega)]
  have htail : utf8TailLen (s.getD i 0) = 0 := by
    rw [utf8TailLen]
    rw [if_neg (by omega), if_neg (by omega), if_neg (by omega)]
  have hctrl : isCtrlShorthand (s.getD i 0) = false := by
    simp only [isCtrlShorthand]
    simp only [Bool.or_eq_false_iff, decide_eq_false_iff_not]
    omega
  have hpr : isprintC (s.getD i 0) = true := by
    simp only [isprintC, Bool.and_eq_true, decide_eq_true_eq]
    omega
  simp only [needs_encode_chars_step, hscan, htail, hctrl, hpr]
  norm_num

theorem needs_encode_chars_go_printable (d u : Bool) (s : List Nat)
    (hs : ∀ b ∈ s, 0x20 ≤ b ∧ b ≤ 0x7E) :
    ∀ fuel i needs size, s.length - i < fuel → i ≤ s.length →
      size + (s.length - i) ≤ INT_MAX →
      needs_encode_chars_go d u s fuel i needs size =
        some (Except.ok (needs, size + (s.length - i))) := by
  intro fuel
  induction fuel with
  | zero => intro i needs size h; omega
  | succ fuel ih =>
    intro i needs size hfuel hile hsize
    by_cases hi : i = s.length
    · subst hi
      simp [needs_encode_chars_go]
    · have hilt : i < s.length := lt_of_le_of_ne hile hi
      have hb : 0x20 ≤ s.getD i 0 ∧ s.getD i 0 ≤ 0x7E := by
        have hmem : s.getD i 0 ∈ s := by
          rw [List.getD_eq_getElem s 0 hilt]
          exact List.getElem_mem hilt
        exact hs _ hmem
      have hstep := needs_encode_chars_step_printable d u s i needs hilt hb
      rw [needs_encode_chars_go, if_neg hi, hstep]
      dsimp only
      rw [if_neg (by omega)]
      have hrec := ih (i + 1) needs (size + 1) (by omega) (by omega) (by omega)
      have harith : size + 1 + (s.length - (i + 1)) = size + (s.length - i) := by omega
      rw [hrec, harith]

theorem chars_total_from_printable (d u : Bool) (s : List Nat)
    (hs : ∀ b ∈ s, 0x20 ≤ b ∧ b ≤ 0x7E) :
    ∀ fuel i, s.length - i < fuel → chars_total_from d u s i = s.length - i := by
  intro fuel
  induction fuel with
  | zero => intro i h; omega
  | succ fuel ih =>
    intro i hfuel
    by_cases hilt : i < s.length
    · have hb : 0x20 ≤ s.getD i 0 ∧ s.getD i 0 ≤ 0x7E := by
        have hmem : s.getD i 0 ∈ s := by
          rw [List.getD_eq_getElem s 0 hilt]
          exact List.getElem_mem hilt
        exact hs _ hmem
      have hstep := needs_encode_chars_step_printable d u s i false hilt hb
      rw [chars_total_from, dif_pos hilt, hstep]
      dsimp only
      rw [ih (i + 1) (by omega)]
      omega
    · rw [chars_total_from, dif_neg hilt]
      omega

theorem needs_encode_bytes_case_nbyte (c : Nat) (needs : Bool) :
    (needs_encode_bytes_case c needs).2 = encode_bytes_nbyte c := by
  simp only [needs_encode_bytes_case, encode_bytes_nbyte]
  repeat' split
  all_goals simp_all

theorem encode_bytes_nbyte_le (c : Nat) : encode_bytes_nbyte c ≤ 4 := by
  simp only [encode_bytes_nbyte]
  repeat' split
  all_goals omega

theorem needs_encode_bytes_go_total :
    ∀ (l : List Nat) (needs : Bool) (size : Nat), size ≤ INT_MAX →
      (needs_encode_bytes_go l needs size = Except.error () ↔
        INT_MAX < size + bytes_total l) ∧
      (∀ n sz, needs_encode_bytes_go l needs size = Except.ok (n, sz) →
        sz = size + bytes_total l) := by
  intro l
  induction l with
  | nil =>
    intro needs size hsize
    constructor
    · constructor
      · intro hcontra; simp [needs_encode_bytes_go] at hcontra
      · intro hcontra; simp [bytes_total] at hcontra; omega
    · intro n sz h
      simp [needs_encode_bytes_go, bytes_total] at h ⊢
      omega
  | cons c rest ih =>
    intro needs size hsize
    have hnb := needs_encode_bytes_case_nbyte c needs
    have hle := encode_bytes_nbyte_le c
    have h4 : (4 : Nat) ≤ INT_MAX := by norm_num [INT_MAX]
    have htot : bytes_total (c :: rest) = encode_bytes_nbyte c + bytes_total rest := by
      simp [bytes_total]
    rw [needs_encode_bytes_go, htot]
    by_cases hov : size > INT_MAX - (needs_encode_bytes_case c needs).2
    · rw [if_pos hov]
      rw [hnb] at hov
      constructor
      · constructor
        · intro; omega
        · intro; rfl
      · intro n sz h; simp at h
    · rw [if_neg hov]
      rw [hnb] at hov ⊢
      have hrec := ih (needs_encode_bytes_case c needs).1
        (size + encode_bytes_nbyte c) (by omega)
      constructor
      · rw [hrec.1]; omega
      · intro n sz h
        have := hrec.2 n sz h
        omega

theorem scanReaches_step_iff {s : List Nat} {i j : Nat}
    (hij : corpus_scan_utf8 s i = some j) (k : Nat) (hik : i ≠ k) :
    ScanReaches s i k ↔ ScanReaches s j k := by
  constructor
  · intro h
    cases h with
    | refl => exact absurd rfl hik
    | step h1 h2 =>
      rw [hij] at h1
      cases h1
      exact h2
  · exact fun h => ScanReaches.step hij h

theorem corpus_scan_utf8_at_end (s : List Nat) :
    corpus_scan_utf8 s s.length = none := by
  rw [corpus_scan_utf8, if_neg (lt_irrefl s.length)]

theorem is_valid_go_spec (s : List Nat) :
    ∀ fuel i, s.length - i < fuel → i ≤ s.length →
      (is_valid_go s fuel i = some (true, Option.none) ↔ ScanReaches s i s.length) ∧
      (∀ k, is_valid_go s fuel i = some (false, some k) →
        ScanReaches s i k ∧ corpus_scan_utf8 s k = Option.none ∧ k < s.length) := by
  intro fuel
  induction fuel with
  | zero => intro i h; omega
  | succ fuel ih =>
    intro i hfuel hile
    by_cases hi : i = s.length
    · subst hi
      constructor
      · simp only [is_valid_go, if_pos rfl]
        exact ⟨fun _ => ScanReaches.refl _, fun _ => rfl⟩
      · intro k hk
        simp [is_valid_go] at hk
    · have hilt : i < s.length := lt_of_le_of_ne hile hi
      rw [is_valid_go]
      rw [if_neg hi]
      cases hs : corpus_scan_utf8 s i
      · constructor
        · constructor
          · intro hcontra; simp at hcontra
          · intro hreach
            exfalso
            cases hreach with
            | refl => exact hi rfl
            | step h1 h2 => rw [hs] at h1; cases h1
        · intro k hk
          simp only [Option.some_inj, Prod.mk.injEq, Option.some.injEq] at hk
          rw [← hk.2]
          exact ⟨ScanReaches.refl i, hs, hilt⟩
      · next j =>
        have hb := corpus_scan_utf8_bounds hs
        have hrec := ih j (by omega) hb.2
        constructor
        · rw [hrec.1]
          exact (scanReaches_step_iff hs s.length hi).symm
        · intro k hk
          obtain ⟨r1, r2, r3⟩ := hrec.2 k hk
          exact ⟨ScanReaches.step hs r1, r2, r3⟩

theorem charsxp_width_go_spec (s : List Nat) :
    ∀ (i : Nat) (cs : List Nat), DecodesTo s i cs →
      ∀ fuel acc, s.length - i < fuel → i ≤ s.length →
        charsxp_width_go s fuel i acc =
          some (acc + (cs.map fun c => charWidthValue (corpus_unicode_charwidth c)).sum) := by
  intro i cs h
  induction h with
  | nil =>
    intro fuel acc hfuel _
    cases fuel with
    | zero => omega
    | succ fuel => simp [charsxp_width_go]
  | cons hscan hdec ih =>
    next i j cs =>
    intro fuel acc hfuel hile
    have hb := corpus_scan_utf8_bounds hscan
    have hd := corpus_scan_decode hscan
    cases fuel with
    | zero => omega
    | succ fuel =>
      rw [charsxp_width_go, if_neg (by omega), hd]
      rw [ih fuel _ (by omega) hb.2]
      congr 1
      simp only [List.map_cons, List.sum_cons, charWidthValue]
      cases corpus_unicode_charwidth (corpus_decode_utf8 s i).1
      all_goals simp
      all_goals omega

theorem charsxp_width_go_stuck (s : List Nat) :
    ∀ fuel i acc, s.length < i → charsxp_width_go s fuel i acc = none := by
  intro fuel
  induction fuel with
  | zero => intro i acc h; rfl
  | succ fuel ih =>
    intro i acc h
    rw [charsxp_width_go, if_neg (by omega)]
    have := corpus_decode_utf8_lt s i
    exact ih _ _ (by omega)

/-- Claim C1: for every input buffer and every combination of the
display and utf8 flags, when the estimator returns normally with byte
count `size`, the encoder writes exactly `size` bytes — the total
advance of the destination equals the estimator's size, never more and
never fewer. -/
theorem C1_dual_pass_agreement :
    ∀ (s : List Nat) (display utf8 needs : Bool) (size : Nat),
      needs_encode_chars s display utf8 = some (Except.ok (needs, size)) →
      ∃ out, encode_chars s display utf8 = some out ∧ out.length = size := by
  intro s d u needs size h
  rw [needs_encode_chars] at h
  obtain ⟨out, hout, hsz⟩ := needs_encode_go_agree d u s (s.length + 1) 0 false 0 needs size h
  refine ⟨out, ?_, by omega⟩
  rw [encode_chars]
  exact hout

/-- Witness for C1 at the one-byte buffer BEL with both flags set. -/
theorem C1_dual_pass_agreement_witness :
    ∃ out, encode_chars [7] true true = some out ∧ out.length = 2 :=
  C1_dual_pass_agreement [7] true true true 2 rfl

/-- Claim C2 (refuted, code bug): a lone newline sets the transform
flag, but following it with the passthrough-class character U+4E2D
(bytes 228 184 173) makes the estimator report `needs = false` for
either display flag, because the passthrough branch resets the flag to
0 — the claimed "needs_transform = true regardless of what follows"
fails. -/
theorem C2_control_flag_reset :
    needs_encode_chars [10] false true = some (Except.ok (true, 2)) ∧
    needs_encode_chars [10, 228, 184, 173] false true = some (Except.ok (false, 5)) ∧
    needs_encode_chars [10, 228, 184, 173] true true = some (Except.ok (false, 5)) :=
  ⟨rfl, rfl, rfl⟩

/-- Claim C3, amended: for every buffer of printable ASCII bytes (no
control characters) whose length does not exceed the 2^31-1 size
ceiling, the estimator reports no transform with size equal to the
input length, and the encode operation returns the original object
unchanged with no allocation. -/
theorem C3_printable_ascii_noop :
    ∀ (s : List Nat) (display utf8 : Bool),
      (∀ b ∈ s, 0x20 ≤ b ∧ b ≤ 0x7E) → s.length ≤ INT_MAX →
      needs_encode_chars s display utf8 = some (Except.ok (false, s.length)) ∧
      charsxp_encode s display utf8 = some (Except.ok CharsxpResult.same) := by
  intro s d u hs hlen
  have h := needs_encode_chars_go_printable d u s hs (s.length + 1) 0 false 0
    (by omega) (by omega) (by omega)
  have h1 : needs_encode_chars s d u = some (Except.ok (false, s.length)) := by
    rw [needs_encode_chars, h]
    norm_num
  refine ⟨h1, ?_⟩
  rw [charsxp_encode, h1]

/-- Witness for C3 at the printable buffer "hi". -/
theorem C3_printable_ascii_noop_witness :
    needs_encode_chars [104, 105] true true = some (Except.ok (false, 2)) ∧
    charsxp_encode [104, 105] true true = some (Except.ok CharsxpResult.same) := by
  have h := C3_printable_ascii_noop [104, 105] true true (by decide)
    (by norm_num [INT_MAX])
  simpa using h

/-- Counterexample to C3 as stated: a buffer of 2^31 printable ASCII
bytes makes the estimator abort with the fatal size overflow instead
of reporting `needs_transform = false`. -/
theorem C3_printable_ascii_noop_counterexample :
    needs_encode_chars (List.replicate (2 ^ 31) 97) true true =
      some (Except.error ()) := by
  have hs : ∀ b ∈ List.replicate (2 ^ 31) 97, 0x20 ≤ b ∧ b ≤ 0x7E := by
    intro b hb
    rw [List.eq_of_mem_replicate hb]
    omega
  have hlen : (List.replicate (2 ^ 31) 97).length = 2 ^ 31 :=
    List.length_replicate _ _
  have htot := chars_total_from_printable true true _ hs
    ((List.replicate (2 ^ 31) 97).length + 1) 0 (by omega)
  rw [needs_encode_chars]
  rw [(needs_encode_chars_go_total true true _
    ((List.replicate (2 ^ 31) 97).length + 1) 0 false 0 (by omega) (by omega)
    (by norm_num)).1]
  rw [htot, hlen]
  norm_num [INT_MAX]

/-- Claim C4: wherever the UTF-8 scan fails, the estimator charges
exactly 4 bytes and advances the cursor by exactly 1 byte, and the
encoder emits exactly backslash-x and the two lowercase hex digits of
that single byte, also advancing by 1; the lone byte 0xFF encodes to
exactly the 4 bytes of backslash-x-f-f. -/
theorem C4_invalid_byte_escape :
    (∀ (display utf8 needs : Bool) (s : List Nat) (i : Nat),
      corpus_scan_utf8 s i = none →
      needs_encode_chars_step display utf8 s i needs = (true, 4, i + 1) ∧
      encode_chars_step display utf8 s i = ([92, 120] ++ hex2 (s.getD i 0), i + 1)) ∧
    (∀ display utf8 : Bool,
      needs_encode_chars [255] display utf8 = some (Except.ok (true, 4)) ∧
      encode_chars [255] display utf8 = some [92, 120, 102, 102]) := by
  constructor
  · intro d u needs s i h
    constructor
    · simp [needs_encode_chars_step, h]
    · simp [encode_chars_step, h]
  · intro d u
    cases d <;> cases u <;> exact ⟨rfl, rfl⟩

/-- Witness for C4 at the invalid lead byte 0xFF. -/
theorem C4_invalid_byte_escape_witness :
    needs_encode_chars_step false false [255] 0 false = (true, 4, 1) ∧
    encode_chars_step false false [255] 0 = ([92, 120] ++ hex2 255, 1) :=
  C4_invalid_byte_escape.1 false false false [255] 0 rfl

/-- Claim C5: the size estimators signal the fatal overflow exactly
when the accumulated total exceeds 2^31-1 (equivalently, when some
step's addition would exceed it, since contributions are nonnegative),
and a normal return carries exactly the accumulated total. -/
theorem C5_overflow_guard :
    ∀ (s : List Nat) (display utf8 : Bool),
      (needs_encode_chars s display utf8 = some (Except.error ()) ↔
        INT_MAX < chars_total_from display utf8 s 0) ∧
      (∀ needs size,
        needs_encode_chars s display utf8 = some (Except.ok (needs, size)) →
        size = chars_total_from display utf8 s 0) ∧
      (needs_encode_bytes s = Except.error () ↔ INT_MAX < bytes_total s) ∧
      (∀ needs size, needs_encode_bytes s = Except.ok (needs, size) →
        size = bytes_total s) := by
  intro s d u
  have hc := needs_encode_chars_go_total d u s (s.length + 1) 0 false 0
    (by omega) (by omega) (by norm_num)
  have hb := needs_encode_bytes_go_total s false 0 (by norm_num)
  refine ⟨?_, ?_, ?_, ?_⟩
  · rw [needs_encode_chars, hc.1]
    omega
  · intro needs size h
    rw [needs_encode_chars] at h
    have := hc.2 needs size h
    omega
  · rw [needs_encode_bytes, hb.1]
    omega
  · intro needs size h
    rw [needs_encode_bytes] at h
    have := hb.2 needs size h
    omega

/-- Witness for C5 at the one-byte newline buffer. -/
theorem C5_overflow_guard_witness :
    needs_encode_chars [10] true true = some (Except.ok (true, 2)) ∧
    2 = chars_total_from true true [10] 0 ∧
    needs_encode_bytes [10] = Except.ok (true, 2) ∧
    2 = bytes_total [10] :=
  ⟨rfl, (C5_overflow_guard [10] true true).2.1 true 2 rfl, rfl,
    (C5_overflow_guard [10] true true).2.2.2 true 2 rfl⟩

/-- Claim C6: is_valid returns true exactly when iterated scanning
from offset 0 reaches the buffer end, and when it returns false the
reported offset is a scan-reachable position at which the scanner
fails — the starting index of the first invalid unit run, strictly
inside the buffer. -/
theorem C6_is_valid_first_offset :
    ∀ s : List Nat,
      (is_valid s = some (true, Option.none) ↔ ScanReaches s 0 s.length) ∧
      (∀ k, is_valid s = some (false, some k) →
        ScanReaches s 0 k ∧ corpus_scan_utf8 s k = Option.none ∧ k < s.length) := by
  intro s
  have h := is_valid_go_spec s (s.length + 1) 0 (by omega) (by omega)
  exact ⟨by rw [is_valid]; exact h.1, by rw [is_valid]; exact h.2⟩

/-- Witness for C6 on a buffer valid up to index 1 followed by a
truncated 2-byte lead. -/
theorem C6_is_valid_first_offset_witness :
    ScanReaches [97, 194] 0 1 ∧ corpus_scan_utf8 [97, 194] 1 = Option.none ∧
      1 < ([97, 194] : List Nat).length :=
  (C6_is_valid_first_offset [97, 194]).2 1 rfl

/-- Claim C7: on a buffer that scans cleanly end to end and decodes to
the code point sequence cs, the width calculator returns the sum over
cs of 1 for NARROW and AMBIGUOUS, 2 for WIDE and EMOJI, and 0 for
every other width class. -/
theorem C7_width_sum :
    ∀ (s : List Nat) (cs : List Nat), DecodesTo s 0 cs →
      charsxp_width s =
        some ((cs.map fun c => charWidthValue (corpus_unicode_charwidth c)).sum) := by
  intro s cs h
  rw [charsxp_width,
    charsxp_width_go_spec s 0 cs h (s.length + 1) 0 (by omega) (by omega)]
  norm_num

/-- Witness for C7 on the WIDE ideograph U+4E2D, of width 2. -/
theorem C7_width_sum_witness :
    DecodesTo [228, 184, 173] 0 [20013] ∧
      charsxp_width [228, 184, 173] = some 2 := by
  have h : DecodesTo [228, 184, 173] 0 [20013] :=
    DecodesTo.cons (j := 3) rfl DecodesTo.nil
  exact ⟨h, (C7_width_sum _ _ h).trans (by decide)⟩

/-- Claim C8: with the utf8 flag false, every valid multi-byte unit
run is escaped numerically regardless of width class and display flag:
the estimator charges 6 bytes when the code point is at most 0xFFFF
and 10 otherwise, and the encoder writes backslash-u plus 4 lowercase
hex digits, or backslash-U plus 8; U+00E9 becomes the 6 bytes of
backslash-u-0-0-e-9. -/
theorem C8_not_utf8_numeric_escape :
    (∀ (display needs : Bool) (s : List Nat) (i j : Nat),
      corpus_scan_utf8 s i = some j → 0x80 ≤ s.getD i 0 →
      needs_encode_chars_step display false s i needs =
        (true, if (corpus_decode_utf8 s i).1 ≤ 0xFFFF then 6 else 10,
          (corpus_decode_utf8 s i).2) ∧
      encode_chars_step display false s i =
        ((if (corpus_decode_utf8 s i).1 ≤ 0xFFFF then
            [92, 117] ++ hex4 (corpus_decode_utf8 s i).1
          else [92, 85] ++ hex8 (corpus_decode_utf8 s i).1),
          (corpus_decode_utf8 s i).2)) ∧
    (∀ display : Bool,
      needs_encode_chars [195, 169] display false = some (Except.ok (true, 6)) ∧
      encode_chars [195, 169] display false = some [92, 117, 48, 48, 101, 57]) := by
  constructor
  · intro d needs s i j hscan hb
    have hb2 : 0xC2 ≤ s.getD i 0 := by
      rw [corpus_scan_utf8] at hscan
      by_contra hcon
      push_neg at hcon
      split at hscan
      · rw [if_neg (by omega), if_pos (by omega)] at hscan
        cases hscan
      · cases hscan
    have htail : utf8TailLen (s.getD i 0) ≠ 0 := by
      rw [utf8TailLen]
      repeat' split
      all_goals omega
    constructor
    · simp only [needs_encode_chars_step, hscan]
      rw [if_neg (show ¬ (1 + utf8TailLen (s.getD i 0) = 1) by omega)]
      simp
    · simp only [encode_chars_step, hscan]
      rw [if_neg (show ¬ (1 + utf8TailLen (s.getD i 0) = 1) by omega)]
      rw [if_pos (by simp)]
  · intro d
    cases d <;> exact ⟨rfl, rfl⟩

/-- Witness for C8 at U+00E9, bytes 195 169. -/
theorem C8_not_utf8_numeric_escape_witness :
    needs_encode_chars_step true false [195, 169] 0 false = (true, 6, 2) ∧
    encode_chars_step true false [195, 169] 0 = ([92, 117] ++ hex4 233, 2) := by
  have h := C8_not_utf8_numeric_escape.1 true false [195, 169] 0 2 rfl (by norm_num)
  exact ⟨h.1.trans (by decide), h.2.trans (by decide)⟩

/-- Claim C9 (refuted, code bug): after elements needing 2 then 3
bytes, the batch loop records capacity 4 (geometric growth) while only
3 bytes were allocated, so the recorded capacity exceeds the
allocation; a third element needing 4 bytes (at most the recorded
capacity) triggers no reallocation yet must write 4 bytes into the
3-byte buffer. -/
theorem C9_scratch_buffer_overflow :
    needs_encode_chars [7] true true = some (Except.ok (true, 2)) ∧
    needs_encode_chars [97, 10] true true = some (Except.ok (true, 3)) ∧
    needs_encode_chars [1] true true = some (Except.ok (true, 4)) ∧
    utf8_encode_run [[7], [97, 10]] true true = ⟨3, 4⟩ ∧
    (utf8_encode_run [[7], [97, 10]] true true).alloc <
      (utf8_encode_run [[7], [97, 10]] true true).cap ∧
    charsxp_encode_st [1] true true (utf8_encode_run [[7], [97, 10]] true true) =
      (⟨3, 4⟩, some 4) ∧
    (utf8_encode_run [[7], [97, 10]] true true).alloc < 4 := by
  refine ⟨rfl, rfl, rfl, rfl, by decide, rfl, by decide⟩

/-- Claim C10 (refuted, code bug): on the buffer holding the lone lead
byte 0xC2 the width loop never terminates — the decode step advances
the cursor past the end, the cursor never again equals the end
position, and the loop returns nothing for any amount of fuel. -/
theorem C10_width_nonterminating :
    charsxp_width [194] = Option.none ∧
    ∀ fuel acc, charsxp_width_go [194] fuel 0 acc = Option.none := by
  have hgo : ∀ fuel acc, charsxp_width_go [194] fuel 0 acc = Option.none := by
    intro fuel acc
    cases fuel with
    | zero => rfl
    | succ fuel =>
      rw [charsxp_width_go, if_neg (by norm_num)]
      exact charsxp_width_go_stuck [194] fuel _ _ (by decide)
  exact ⟨hgo 2 0, hgo⟩
